import Mathlib

/-!
Verification of the HandControl pattern arithmetic (`src/data/patterns.ts`)
and the beat-scheduling engine (`MetronomeEngine`).

Numbers: pattern indices are JavaScript numbers used with the 32-bit
bitwise operators, so index arithmetic is modelled on `Int` with an
explicit `ToInt32` wrap; times, tempos and `notesPerBeat` values are
exact small binary fractions in the source, modelled as `ℚ`.
-/

namespace HandControl

/-- Hand of a stroke, `type Hand = 'L' | 'R'`. -/
inductive Hand where
  | R : Hand
  | L : Hand
deriving DecidableEq, Repr

/-- Generated pattern: an id together with its sticking sequence
(`interface GeneratedPattern`). -/
structure GeneratedPattern where
  id : Int
  sticking : List Hand
deriving DecidableEq, Repr

/-- Two-measure pattern (`interface TwoMeasurePattern`). -/
structure TwoMeasurePattern where
  measure1 : GeneratedPattern
  measure2 : GeneratedPattern
deriving DecidableEq, Repr

/-- Variant policy for combining a pattern with its reversal
(`type PatternVariant`). -/
inductive PatternVariant where
  | patternPattern : PatternVariant
  | reversalReversal : PatternVariant
  | patternReversal : PatternVariant
deriving DecidableEq, Repr

/-- Each base pattern has 3 variants (`VARIANTS_PER_PATTERN = 3`). -/
def VARIANTS_PER_PATTERN : Int := 3

/-- JavaScript `ToInt32`: wrap an integer into `[-2^31, 2^31)`, as the
`>>` and `&` operators do to their operands. -/
def jsToInt32 (x : Int) : Int :=
  (x + 2 ^ 31) % 2 ^ 32 - 2 ^ 31

/-- Evaluation of the JavaScript expression `(index >> pos) & 1`:
`index` is wrapped to a signed 32-bit value, arithmetically shifted
right by `pos % 32` (floor division by a power of two), and the low bit
is taken (`& 1` on a two's-complement value is the Euclidean remainder
mod 2). -/
def getBit (index : Int) (pos : Nat) : Int :=
  (jsToInt32 index).fdiv (2 ^ (pos % 32)) % 2

/-- Translation of `getPatternAtIndex(index, length)`: for each position
`i` in `[0, length)` the bit of `index` at `length - 1 - i` is read
(most significant first) and mapped 0 ↦ R, 1 ↦ L; the raw `index` is
returned unchanged as the `id`. -/
def getPatternAtIndex (index : Int) (length : Nat) : GeneratedPattern :=
  { id := index
    sticking := (List.range length).map fun i =>
      if getBit index (length - 1 - i) = 0 then Hand.R else Hand.L }

/-- Translation of `reversePattern(pattern)`: flip every stroke L ↔ R
and set the id to `2^length - 1 - pattern.id` where `length` is the
sticking length. -/
def reversePattern (pattern : GeneratedPattern) : GeneratedPattern :=
  let reversedSticking : List Hand :=
    pattern.sticking.map fun hand => if hand = Hand.L then Hand.R else Hand.L
  let length := pattern.sticking.length
  let totalPatterns : Int := 2 ^ length
  { id := totalPatterns - 1 - pattern.id
    sticking := reversedSticking }

/-- Translation of `createTwoMeasurePattern(pattern)`. -/
def createTwoMeasurePattern (pattern : GeneratedPattern) : TwoMeasurePattern :=
  { measure1 := pattern
    measure2 := reversePattern pattern }

/-- Translation of `createTwoMeasurePatternVariant(pattern, variant)`. -/
def createTwoMeasurePatternVariant (pattern : GeneratedPattern)
    (variant : PatternVariant) : TwoMeasurePattern :=
  let reversed := reversePattern pattern
  match variant with
  | .patternPattern => { measure1 := pattern, measure2 := pattern }
  | .reversalReversal => { measure1 := reversed, measure2 := reversed }
  | .patternReversal => { measure1 := pattern, measure2 := reversed }

/-- Translation of `getBasePatternCount(length) = Math.pow(2, length)`. -/
def getBasePatternCount (length : Nat) : Int := 2 ^ length

/-- Translation of `getTotalPatterns(length)`. -/
def getTotalPatterns (length : Nat) : Int :=
  getBasePatternCount length * VARIANTS_PER_PATTERN

/-- Translation of `normalizePatternIndex(index, length)`: JavaScript `%`
on integers is the truncated remainder `Int.tmod`. -/
def normalizePatternIndex (index : Int) (length : Nat) : Int :=
  let total := getTotalPatterns length
  ((index.tmod total) + total).tmod total

/-- Decoding of a sticking sequence back to a number, per the spec:
read MSB-first with R ↦ 0 and L ↦ 1. -/
def stickingToNat (sticking : List Hand) : Nat :=
  sticking.foldl (fun acc h => 2 * acc + match h with | Hand.L => 1 | Hand.R => 0) 0

/-- Character used for a hand when a sticking is joined into a string
(`pattern.sticking.join('')`). -/
def handChar : Hand → Char
  | Hand.R => 'R'
  | Hand.L => 'L'

/-- Joined sticking string of a pattern. -/
def stickingString (pattern : GeneratedPattern) : String :=
  String.mk (pattern.sticking.map handChar)

/-- Table of common 8-note rudiment names (`rudiments8`). -/
def rudiments8 : List (String × String) :=
  [("RLRLRLRL", "Single Stroke Roll"),
   ("LRLRLRLR", "Single Stroke Roll (L)"),
   ("RRLLRRLL", "Double Stroke Roll"),
   ("LLRRLLRR", "Double Stroke Roll (L)"),
   ("RLRRLRLL", "Single Paradiddle"),
   ("LRLLRLRR", "Single Paradiddle (L)"),
   ("RLLRLLRL", "Inverted Paradiddle"),
   ("LRRLRRRL", "Inverted Paradiddle (L)"),
   ("RRLRLLRL", "Double Paradiddle"),
   ("LLRLRRRL", "Double Paradiddle (L)"),
   ("RRRLRRRL", "Flam Accent (R)"),
   ("LLLRLLLR", "Flam Accent (L)")]

/-- Translation of `getPatternDisplayName(pattern)`: table lookup, then
2-note and 4-note repeating-unit detection, then the generic
1-indexed fallback name. The source's early returns become nested
if-then-else. -/
def getPatternDisplayName (pattern : GeneratedPattern) : String :=
  let stickingStr := stickingString pattern
  match rudiments8.lookup stickingStr with
  | some name => name
  | none =>
    let length := pattern.sticking.length
    let unit2 := stickingStr.take 2
    let unit4 := stickingStr.take 4
    if 4 ≤ length ∧ length % 2 = 0
        ∧ String.join (List.replicate (length / 2) unit2) = stickingStr then
      unit2 ++ " Pattern"
    else if 8 ≤ length ∧ length % 4 = 0
        ∧ String.join (List.replicate (length / 4) unit4) = stickingStr then
      unit4 ++ " Pattern"
    else
      "Pattern #" ++ toString (pattern.id + 1)

/-! Definitions for the beat-scheduling engine (`MetronomeEngine` and the
declarations it uses from `types.ts`). -/

/-- Note subdivision (`type NoteValue`). -/
inductive NoteValue where
  | whole : NoteValue
  | half : NoteValue
  | quarter : NoteValue
  | eighth : NoteValue
  | sixteenth : NoteValue
  | eighthTriplet : NoteValue
  | sixteenthTriplet : NoteValue
deriving DecidableEq, Repr

/-- Time signature (`type TimeSignature`). -/
inductive TimeSignature where
  | fourFour : TimeSignature
  | threeFour : TimeSignature
  | twoFour : TimeSignature
  | sixEight : TimeSignature
deriving DecidableEq, Repr

/-- Click policy (`type ClickMode`). -/
inductive ClickMode where
  | everyNote : ClickMode
  | quarterOnly : ClickMode
deriving DecidableEq, Repr

/-- Per-signature configuration (`interface TimeSignatureConfig`). -/
structure TimeSignatureConfig where
  beatsPerMeasure : Nat
  beatUnit : Nat
  isCompound : Bool
deriving DecidableEq, Repr

/-- Translation of the `TIME_SIGNATURE_CONFIGS` lookup table. -/
def TIME_SIGNATURE_CONFIGS : TimeSignature → TimeSignatureConfig
  | TimeSignature.fourFour => { beatsPerMeasure := 4, beatUnit := 4, isCompound := false }
  | TimeSignature.threeFour => { beatsPerMeasure := 3, beatUnit := 4, isCompound := false }
  | TimeSignature.twoFour => { beatsPerMeasure := 2, beatUnit := 4, isCompound := false }
  | TimeSignature.sixEight => { beatsPerMeasure := 6, beatUnit := 8, isCompound := true }

/-- Entry of the `NOTE_VALUES` table. -/
structure NoteValueEntry where
  value : NoteValue
  label : String
  notesPerBeat : ℚ
deriving DecidableEq, Repr

/-- Translation of the `NOTE_VALUES` table; `notesPerBeat` values are the
exact binary fractions of the source. -/
def NOTE_VALUES : List NoteValueEntry :=
  [{ value := NoteValue.whole, label := "Whole Notes", notesPerBeat := 0.25 },
   { value := NoteValue.half, label := "Half Notes", notesPerBeat := 0.5 },
   { value := NoteValue.quarter, label := "Quarter Notes", notesPerBeat := 1 },
   { value := NoteValue.eighth, label := "Eighth Notes", notesPerBeat := 2 },
   { value := NoteValue.sixteenth, label := "Sixteenth Notes", notesPerBeat := 4 },
   { value := NoteValue.eighthTriplet, label := "Eighth Triplets", notesPerBeat := 3 },
   { value := NoteValue.sixteenthTriplet, label := "Sixteenth Triplets", notesPerBeat := 6 }]

/-- Translation of `getNotesPerBeat(noteValue)`: table lookup with
default 1. -/
def getNotesPerBeat (noteValue : NoteValue) : ℚ :=
  match NOTE_VALUES.find? (fun n => n.value = noteValue) with
  | some n => n.notesPerBeat
  | none => 1

/-- JavaScript `a % b` on the non-negative finite numbers the engine
feeds it (an integer position and a positive `notesPerBeat`): the
remainder after truncated division, which for non-negative operands is
floored division. -/
def numRem (a b : ℚ) : ℚ := a - b * (⌊a / b⌋ : ℚ)

/-- Callback events a scheduled visual timer can deliver. -/
inductive EngineEvent where
  | onBeat (beatIndex : Nat) : EngineEvent
  | onMeasureComplete : EngineEvent
deriving DecidableEq, Repr

/-- Audible click parameters chosen for one scheduled note (oscillator
frequency and gain). -/
structure ClickSpec where
  frequency : ℚ
  gain : ℚ
deriving DecidableEq, Repr

/-- Data captured by the `setTimeout` closure of one scheduled note: the
wall-clock delay, the note's beat index, and the cycle length read at
scheduling time. -/
structure VisualTimer where
  delay : ℚ
  beatIndex : Nat
  totalNotes : Nat
deriving DecidableEq, Repr

/-- Mutable state of the `MetronomeEngine` class. The audio context is
modelled by its presence (`Option Unit`); the audio clock is passed to
the methods that read `audioContext.currentTime`. Callbacks are
modelled by whether `setCallbacks` registered them. -/
structure MetronomeEngine where
  audioContext : Option Unit := none
  isPlaying : Bool := false
  bpm : ℚ := 120
  noteValue : NoteValue := NoteValue.eighth
  timeSignature : TimeSignature := TimeSignature.fourFour
  beatsPerMeasure : Nat := 4
  currentBeat : Nat := 0
  notesInMeasure : Nat := 8
  twoMeasureMode : Bool := false
  clickMode : ClickMode := ClickMode.everyNote
  nextNoteTime : ℚ := 0
  scheduleAheadTime : ℚ := 0.1
  lookaheadInterval : ℚ := 25
  timerID : Option Nat := none
  callbacks : Option Unit := none
  clickFrequencyHigh : ℚ := 1000
  clickFrequencyLow : ℚ := 800
  clickDuration : ℚ := 0.05
  volume : ℚ := 0.5
deriving DecidableEq, Repr

namespace MetronomeEngine

/-- Translation of `initAudioContext()`: create a context only when a
`window` object exists and none is present yet. -/
def initAudioContext (windowDefined : Bool) (e : MetronomeEngine) : MetronomeEngine :=
  if windowDefined = true ∧ e.audioContext = none then
    { e with audioContext := some () }
  else e

/-- State right after `new MetronomeEngine()` in an environment where a
`window` object exists iff `windowDefined`. -/
def new (windowDefined : Bool) : MetronomeEngine :=
  initAudioContext windowDefined {}

/-- Translation of `setCallbacks(callbacks)`. -/
def setCallbacks (e : MetronomeEngine) : MetronomeEngine :=
  { e with callbacks := some () }

/-- Translation of `setBpm(bpm)`: clamp to [20, 300]. -/
def setBpm (bpm : ℚ) (e : MetronomeEngine) : MetronomeEngine :=
  { e with bpm := max 20 (min 300 bpm) }

/-- Translation of `updateNotesInMeasure()`. -/
def updateNotesInMeasure (e : MetronomeEngine) : MetronomeEngine :=
  { e with notesInMeasure :=
      (⌊getNotesPerBeat e.noteValue * (e.beatsPerMeasure : ℚ)⌋).toNat }

/-- Translation of `setNoteValue(noteValue)`. -/
def setNoteValue (noteValue : NoteValue) (e : MetronomeEngine) : MetronomeEngine :=
  updateNotesInMeasure { e with noteValue := noteValue }

/-- Translation of `setTimeSignature(timeSignature)`. -/
def setTimeSignature (timeSignature : TimeSignature) (e : MetronomeEngine) :
    MetronomeEngine :=
  updateNotesInMeasure
    { e with timeSignature := timeSignature
             beatsPerMeasure := (TIME_SIGNATURE_CONFIGS timeSignature).beatsPerMeasure }

/-- Translation of `setTwoMeasureMode(enabled)`. -/
def setTwoMeasureMode (enabled : Bool) (e : MetronomeEngine) : MetronomeEngine :=
  { e with twoMeasureMode := enabled }

/-- Translation of `setClickMode(mode)`. -/
def setClickMode (mode : ClickMode) (e : MetronomeEngine) : MetronomeEngine :=
  { e with clickMode := mode }

/-- Translation of `setVolume(vol)`: clamp to [0, 1]. -/
def setVolume (vol : ℚ) (e : MetronomeEngine) : MetronomeEngine :=
  { e with volume := max 0 (min 1 vol) }

/-- Translation of `getTotalNotesInCycle()`. -/
def getTotalNotesInCycle (e : MetronomeEngine) : Nat :=
  if e.twoMeasureMode then e.notesInMeasure * 2 else e.notesInMeasure

/-- Translation of `getNoteInterval()`: seconds per scheduled note. -/
def getNoteInterval (e : MetronomeEngine) : ℚ :=
  let notesPerBeat := getNotesPerBeat e.noteValue
  let beatDuration := 60 / e.bpm
  beatDuration / notesPerBeat

/-- Translation of `shouldPlayClick(beatIndex)`. -/
def shouldPlayClick (e : MetronomeEngine) (beatIndex : Nat) : Bool :=
  if e.clickMode = ClickMode.everyNote then
    true
  else
    let notesPerBeat := getNotesPerBeat e.noteValue
    let positionInMeasure := beatIndex % e.notesInMeasure
    decide (numRem (positionInMeasure : ℚ) notesPerBeat = 0)

/-- Translation of `scheduleNote(time, beatIndex)`: returns `none` when
there is no audio context (early return), otherwise the optional
audible click (with its frequency/gain tier) and the data captured by
the visual-callback timer. `currentTime` is the audio clock's value. -/
def scheduleNote (e : MetronomeEngine) (time : ℚ) (currentTime : ℚ)
    (beatIndex : Nat) : Option (Option ClickSpec × VisualTimer) :=
  match e.audioContext with
  | none => none
  | some _ =>
    let config := TIME_SIGNATURE_CONFIGS e.timeSignature
    let notesPerBeat := getNotesPerBeat e.noteValue
    let totalNotes := getTotalNotesInCycle e
    let positionInMeasure := beatIndex % e.notesInMeasure
    let isDownbeat := beatIndex = 0
    let isMeasure2Downbeat := e.twoMeasureMode = true ∧ beatIndex = e.notesInMeasure
    let halfMeasure := e.notesInMeasure / 2
    let isStrongBeat :=
      if config.isCompound then
        positionInMeasure = 0 ∨ positionInMeasure = halfMeasure
      else
        numRem (positionInMeasure : ℚ) notesPerBeat = 0
    let playClick := shouldPlayClick e beatIndex
    let click : Option ClickSpec :=
      if playClick then
        some (if isDownbeat ∨ isMeasure2Downbeat then
                { frequency := e.clickFrequencyHigh, gain := e.volume }
              else if isStrongBeat then
                { frequency := e.clickFrequencyLow, gain := e.volume * 0.8 }
              else
                { frequency := e.clickFrequencyLow * 0.8, gain := e.volume * 0.5 })
      else none
    let delay := max 0 ((time - currentTime) * 1000)
    some (click, { delay := delay, beatIndex := beatIndex, totalNotes := totalNotes })

/-- Firing of one pending visual-callback timer (the body of the
`setTimeout` closure in `scheduleNote`), evaluated against the engine
state at fire time: an empty event list when the callbacks are unset or
the engine is no longer playing, otherwise `onBeat` and, for the last
note of the cycle, `onMeasureComplete` immediately after it. -/
def fireVisualTimer (e : MetronomeEngine) (t : VisualTimer) : List EngineEvent :=
  if e.callbacks ≠ none ∧ e.isPlaying = true then
    EngineEvent.onBeat t.beatIndex ::
      (if t.beatIndex = t.totalNotes - 1 then [EngineEvent.onMeasureComplete] else [])
  else []

/-- Body of the `while` loop in `scheduler()`: schedule the note at
`nextNoteTime` for `currentBeat`, then advance `nextNoteTime` by the
note interval and `currentBeat` by one modulo the cycle length. -/
def schedulerBody (e : MetronomeEngine) (currentTime : ℚ) :
    MetronomeEngine × Option (Option ClickSpec × VisualTimer) :=
  let totalNotes := getTotalNotesInCycle e
  let out := scheduleNote e e.nextNoteTime currentTime e.currentBeat
  ({ e with nextNoteTime := e.nextNoteTime + getNoteInterval e
            currentBeat := (e.currentBeat + 1) % totalNotes }, out)

/-- Translation of the `scheduler()` polling tick: run the loop body as
long as `nextNoteTime` lies within the lookahead window, collecting the
scheduled notes; `fuel` bounds the iterations (the loop terminates in
the source because every iteration grows `nextNoteTime` by a positive
interval). Returns `(e, [])` with no audio context (early return). -/
def scheduler (fuel : Nat) (e : MetronomeEngine) (currentTime : ℚ) :
    MetronomeEngine × List (Option ClickSpec × VisualTimer) :=
  match e.audioContext with
  | none => (e, [])
  | some _ =>
    match fuel with
    | 0 => (e, [])
    | fuel + 1 =>
      if e.nextNoteTime < currentTime + e.scheduleAheadTime then
        let step := schedulerBody e currentTime
        let rest := scheduler fuel step.1 currentTime
        (rest.1, (step.2.map fun x => [x]).getD [] ++ rest.2)
      else (e, [])

/-- Translation of `start()`: no-op when already playing or when no
audio context could be created; otherwise reset the beat counter,
recompute the measure length, set the first note 50 ms ahead of the
audio clock and start the polling timer. The resume of a suspended
context is transparent here (the model's clock is external), and the
function is total: it returns normally in every case. -/
def start (windowDefined : Bool) (currentTime : ℚ) (e : MetronomeEngine) :
    MetronomeEngine :=
  if e.isPlaying = true then e
  else
    let e := initAudioContext windowDefined e
    if e.audioContext = none then e
    else
      let e := updateNotesInMeasure { e with isPlaying := true, currentBeat := 0 }
      { e with nextNoteTime := currentTime + 0.05, timerID := some 1 }

/-- Translation of `stop()`: no-op when already stopped; otherwise clear
the playing flag, cancel the polling timer and reset the beat counter. -/
def stop (e : MetronomeEngine) : MetronomeEngine :=
  if e.isPlaying = false then e
  else { e with isPlaying := false, timerID := none, currentBeat := 0 }

/-- Translation of `isRunning()`. -/
def isRunning (e : MetronomeEngine) : Bool := e.isPlaying

/-- Translation of `getCurrentBeat()`. -/
def getCurrentBeat (e : MetronomeEngine) : Nat := e.currentBeat

end MetronomeEngine

/-- Engine of the C2 scenario: callbacks registered, note value set to
quarter notes, then started at audio-clock time 0 (BPM 120, 4/4 and
single-measure mode are the constructor defaults). -/
def engineC2start : MetronomeEngine :=
  MetronomeEngine.start true 0
    (MetronomeEngine.setNoteValue NoteValue.quarter
      (MetronomeEngine.setCallbacks (MetronomeEngine.new true)))

/-- One `scheduler()` loop iteration at audio-clock time 0, keeping only
the engine state. -/
def stepC2 (e : MetronomeEngine) : MetronomeEngine :=
  (MetronomeEngine.schedulerBody e 0).1

/-- Engine of the C7 scenario: started engine with callbacks, eighth
notes and the quarter-only click policy. -/
def engineC7 : MetronomeEngine :=
  MetronomeEngine.setClickMode ClickMode.quarterOnly
    (MetronomeEngine.setNoteValue NoteValue.eighth
      (MetronomeEngine.setCallbacks
        (MetronomeEngine.start true 0 (MetronomeEngine.new true))))

/-! Helper lemmas about truncated remainder and the 32-bit wrap. -/

/-- Truncated remainder of a negated dividend is the negated remainder. -/
theorem tmod_neg_left (x t : Int) : (-x).tmod t = -(x.tmod t) := by
  rw [Int.tmod_def, Int.tmod_def, Int.neg_tdiv]
  ring

/-- Truncated remainder by a positive modulus is greater than `-t`. -/
theorem neg_lt_tmod (x : Int) {t : Int} (ht : 0 < t) : -t < x.tmod t := by
  rcases le_or_lt 0 x with hx | hx
  · have h := Int.tmod_nonneg t hx
    omega
  · have h1 := Int.tmod_lt_of_pos (-x) ht
    have h2 := tmod_neg_left x t
    omega

/-- The double-truncated-remainder expression of `normalizePatternIndex`
computes the Euclidean (floored, for positive modulus) remainder. -/
theorem normalizePatternIndex_eq_emod (x : Int) (L : Nat) :
    normalizePatternIndex x L = x % getTotalPatterns L := by
  have ht : (0 : Int) < getTotalPatterns L := by
    unfold getTotalPatterns getBasePatternCount VARIANTS_PER_PATTERN
    positivity
  set t := getTotalPatterns L with htdef
  have h1 : -t < x.tmod t := neg_lt_tmod x ht
  have h2 : 0 ≤ x.tmod t + t := by omega
  show (x.tmod t + t).tmod t = x % t
  rw [Int.tmod_eq_emod h2 (le_of_lt ht)]
  have h3 : x.tmod t + t = x.tmod t + t * 1 := by ring
  rw [h3, Int.add_mul_emod_self_left]
  conv_rhs => rw [← Int.tdiv_add_tmod x t]
  rw [add_comm (t * x.tdiv t) (x.tmod t), Int.add_mul_emod_self_left]

/-- Adding a multiple of `2^e` does not change bit `pos` when `pos < e`. -/
theorem ediv_emod_two_shift (r q : Int) (pos e : Nat) (h : pos < e) :
    ((r + 2 ^ e * q) / 2 ^ pos) % 2 = (r / 2 ^ pos) % 2 := by
  have h1 : (2 : Int) ^ e * q = 2 ^ pos * (2 ^ (e - pos) * q) := by
    rw [← mul_assoc, ← pow_add]
    congr 2
    omega
  rw [h1, Int.add_mul_ediv_left r _ (by positivity)]
  have h2 : (2 : Int) ^ (e - pos) * q = 2 * (2 ^ (e - pos - 1) * q) := by
    rw [← mul_assoc]
    congr 1
    rw [← pow_succ']
    congr 1
    omega
  rw [h2, Int.add_mul_emod_self_left]

/-- Closed form for the `ToInt32` wrap in terms of the Euclidean remainder. -/
theorem jsToInt32_eq (x : Int) :
    jsToInt32 x = x % 2 ^ 32 - 2 ^ 32 * (if 2 ^ 31 ≤ x % 2 ^ 32 then 1 else 0) := by
  unfold jsToInt32
  have h0 : (0 : Int) < 2 ^ 32 := by norm_num
  have hm0 : 0 ≤ x % 2 ^ 32 := Int.emod_nonneg x (by norm_num)
  have hm1 : x % 2 ^ 32 < 2 ^ 32 := Int.emod_lt_of_pos x h0
  rw [Int.add_emod]
  have h31 : (2 : Int) ^ 31 % 2 ^ 32 = 2 ^ 31 := by decide
  rw [h31]
  set r := x % 2 ^ 32 with hr
  by_cases hc : 2 ^ 31 ≤ r
  · have he : r + 2 ^ 31 = (r + 2 ^ 31 - 2 ^ 32) + 2 ^ 32 * 1 := by ring
    rw [if_pos hc, he, Int.add_mul_emod_self_left,
      Int.emod_eq_of_lt (by omega) (by omega)]
    ring
  · rw [if_neg hc, Int.emod_eq_of_lt (by omega) (by omega)]
    ring

/-- Bit extraction `(index >> pos) & 1` reads bit `pos` of the Euclidean
remainder of the index mod `2^32`, for shifts below 32. -/
theorem getBit_eq (x : Int) (pos : Nat) (hpos : pos < 32) :
    getBit x pos = ((x % 2 ^ 32) / 2 ^ pos) % 2 := by
  unfold getBit
  rw [Nat.mod_eq_of_lt hpos]
  rw [Int.fdiv_eq_ediv _ (by positivity)]
  rw [jsToInt32_eq]
  have he : x % 2 ^ 32 - 2 ^ 32 * (if 2 ^ 31 ≤ x % 2 ^ 32 then (1 : Int) else 0)
      = x % 2 ^ 32 + 2 ^ 32 * (-(if 2 ^ 31 ≤ x % 2 ^ 32 then (1 : Int) else 0)) := by
    ring
  rw [he, ediv_emod_two_shift _ _ pos 32 hpos]

/-- On natural indices below `2^32` the JavaScript bit extraction is plain
binary digit extraction. -/
theorem getBit_natCast (i pos : Nat) (hpos : pos < 32) (hi : i < 2 ^ 32) :
    getBit (i : Int) pos = ((i / 2 ^ pos) % 2 : Nat) := by
  rw [getBit_eq _ _ hpos]
  have h1 : (i : Int) % 2 ^ 32 = (i : Int) :=
    Int.emod_eq_of_lt (by positivity) (by exact_mod_cast hi)
  rw [h1]
  norm_cast

/-- Bits below `L` only depend on the index mod `2^L` (for `L ≤ 32`). -/
theorem getBit_mask (x : Int) (L pos : Nat) (hL : L ≤ 32) (hpos : pos < L) :
    getBit x pos = getBit (x % 2 ^ L) pos := by
  have hp32 : pos < 32 := lt_of_lt_of_le hpos hL
  rw [getBit_eq _ _ hp32, getBit_eq _ _ hp32]
  have hL0 : (0 : Int) < 2 ^ L := by positivity
  have hb0 : 0 ≤ x % 2 ^ L := Int.emod_nonneg x (by positivity)
  have hb1 : x % 2 ^ L < 2 ^ L := Int.emod_lt_of_pos x hL0
  have hle : (2 : Int) ^ L ≤ 2 ^ 32 := by
    apply pow_le_pow_right₀ (by norm_num) hL
  rw [Int.emod_eq_of_lt hb0 (lt_of_lt_of_le hb1 hle)]
  have hdvd : (2 : Int) ^ L ∣ 2 ^ 32 := pow_dvd_pow 2 hL
  have hsplit : x % 2 ^ 32 = x % 2 ^ L + 2 ^ L * ((x % 2 ^ 32) / 2 ^ L) := by
    have h2 := Int.ediv_add_emod (x % 2 ^ 32) (2 ^ L)
    have h3 : (x % 2 ^ 32) % 2 ^ L = x % 2 ^ L := Int.emod_emod_of_dvd x hdvd
    omega
  rw [hsplit, ediv_emod_two_shift _ _ pos L hpos]

/-- The sticking of a pattern at a natural index below `2^32` lists the
binary digits of the index, most significant first. -/
theorem sticking_eq_natBits (i length : Nat) (hlen : length ≤ 32) (hi : i < 2 ^ 32) :
    (getPatternAtIndex (i : Int) length).sticking
      = (List.range length).map
          (fun k => if (i / 2 ^ (length - 1 - k)) % 2 = 0 then Hand.R else Hand.L) := by
  unfold getPatternAtIndex
  apply List.map_congr_left
  intro k hk
  rw [List.mem_range] at hk
  rw [getBit_natCast i (length - 1 - k) (by omega) hi]
  simp only [Nat.cast_eq_zero]

/-- Folding the decode step over the digit list of `i` accumulates
`acc * 2^length + i % 2^length`. -/
theorem foldl_sticking (i : Nat) : ∀ (length acc : Nat),
    List.foldl (fun acc h => 2 * acc + match h with | Hand.L => 1 | Hand.R => 0) acc
      ((List.range length).map
        (fun k => if (i / 2 ^ (length - 1 - k)) % 2 = 0 then Hand.R else Hand.L))
      = acc * 2 ^ length + i % 2 ^ length := by
  intro length
  induction length with
  | zero => intro acc; simp [Nat.mod_one]
  | succ n ih =>
    intro acc
    rw [List.range_succ_eq_map, List.map_cons, List.map_map, List.foldl_cons]
    have hcomp : ((fun k => if (i / 2 ^ (n + 1 - 1 - k)) % 2 = 0 then Hand.R else Hand.L)
          ∘ Nat.succ)
        = fun k => if (i / 2 ^ (n - 1 - k)) % 2 = 0 then Hand.R else Hand.L := by
      funext k
      have h : n + 1 - 1 - Nat.succ k = n - 1 - k := by omega
      have h2 : n - (k + 1) = n - 1 - k := by omega
      simp [Function.comp, h, h2]
    rw [hcomp]
    have hhead : (2 * acc + match (if (i / 2 ^ (n + 1 - 1 - 0)) % 2 = 0
          then Hand.R else Hand.L) with | Hand.L => 1 | Hand.R => 0)
        = 2 * acc + (i / 2 ^ n) % 2 := by
      have h : n + 1 - 1 - 0 = n := by omega
      rw [h]
      rcases Nat.mod_two_eq_zero_or_one (i / 2 ^ n) with hb | hb <;> simp [hb]
    rw [hhead, ih]
    rw [pow_succ, Nat.mod_mul]
    ring

/-- Floor of a quotient of natural-number casts is natural division. -/
theorem floor_natCast_div (n b : Nat) (hb : 0 < b) :
    (⌊(n : ℚ) / (b : ℚ)⌋ : ℤ) = (n / b : Nat) := by
  have hb' : (0 : ℚ) < b := by exact_mod_cast hb
  rw [Int.floor_eq_iff]
  constructor
  · rw [le_div_iff₀ hb']
    have h : n / b * b ≤ n := Nat.div_mul_le_self n b
    push_cast
    exact_mod_cast h
  · rw [div_lt_iff₀ hb']
    have h2 : n % b < b := Nat.mod_lt n hb
    have h3 := Nat.div_add_mod n b
    have he : (n / b + 1) * b = b * (n / b) + b := by ring
    have h : n < (n / b + 1) * b := by rw [he]; omega
    push_cast
    exact_mod_cast h

/-- JavaScript remainder of natural casts is the natural remainder. -/
theorem numRem_natCast (n b : Nat) (hb : 0 < b) :
    numRem (n : ℚ) (b : ℚ) = ((n % b : Nat) : ℚ) := by
  unfold numRem
  rw [floor_natCast_div n b hb, Int.cast_natCast]
  have h3 := Nat.div_add_mod n b
  have h' : (b : ℚ) * ((n / b : Nat) : ℚ) + ((n % b : Nat) : ℚ) = (n : ℚ) := by
    exact_mod_cast h3
  linarith

/-! Theorems settling the claims. -/

/-- C1: for every length N in [1,16] and index i in [0, 2^N),
`getPatternAtIndex(i, N)` returns a sticking of length N whose k-th
stroke is R or L according to bit `N - 1 - k` of i (binary, MSB-first,
0 ↦ R, 1 ↦ L), and decoding the sticking (R ↦ 0, L ↦ 1, MSB-first)
recovers i. -/
theorem pattern_index_roundtrip (N i : Nat) (hN1 : 1 ≤ N) (hN2 : N ≤ 16)
    (hi : i < 2 ^ N) :
    (getPatternAtIndex (i : Int) N).sticking.length = N
    ∧ (∀ k, k < N → (getPatternAtIndex (i : Int) N).sticking.getD k Hand.R
        = if (i / 2 ^ (N - 1 - k)) % 2 = 0 then Hand.R else Hand.L)
    ∧ stickingToNat (getPatternAtIndex (i : Int) N).sticking = i := by
  have h32 : N ≤ 32 := by omega
  have hi32 : i < 2 ^ 32 := lt_of_lt_of_le hi (Nat.pow_le_pow_right (by norm_num) h32)
  have hs := sticking_eq_natBits i N h32 hi32
  refine ⟨by rw [hs]; simp, ?_, ?_⟩
  · intro k hk
    rw [hs]
    have hlen : k < ((List.range N).map
        (fun k => if (i / 2 ^ (N - 1 - k)) % 2 = 0 then Hand.R else Hand.L)).length := by
      simpa using hk
    rw [List.getD_eq_getElem _ _ hlen, List.getElem_map, List.getElem_range]
  · rw [hs]
    unfold stickingToNat
    rw [foldl_sticking]
    simp [Nat.mod_eq_of_lt hi]

/-- Witness for C1 at N = 3, i = 5. -/
theorem pattern_index_roundtrip_witness :
    (getPatternAtIndex ((5 : Nat) : Int) 3).sticking.length = 3
    ∧ (∀ k, k < 3 → (getPatternAtIndex ((5 : Nat) : Int) 3).sticking.getD k Hand.R
        = if ((5 : Nat) / 2 ^ (3 - 1 - k)) % 2 = 0 then Hand.R else Hand.L)
    ∧ stickingToNat (getPatternAtIndex ((5 : Nat) : Int) 3).sticking = 5 :=
  pattern_index_roundtrip 3 5 (by norm_num) (by norm_num) (by norm_num)

/-- C4: reversing a pattern of length N with id in [0, 2^N) is an
involution on both id and sticking; the reversed id is `2^N - 1 - id`
and the reversed sticking flips every stroke. -/
theorem reverse_pattern_involution (p : GeneratedPattern) (N : Nat)
    (hlen : p.sticking.length = N) (h0 : 0 ≤ p.id) (h1 : p.id < 2 ^ N) :
    reversePattern (reversePattern p) = p
    ∧ (reversePattern p).id = 2 ^ N - 1 - p.id
    ∧ (reversePattern p).sticking
        = p.sticking.map fun h => if h = Hand.L then Hand.R else Hand.L := by
  subst hlen
  refine ⟨?_, rfl, rfl⟩
  cases p with
  | mk pid ps =>
    show reversePattern (reversePattern { id := pid, sticking := ps })
        = { id := pid, sticking := ps }
    unfold reversePattern
    simp only [List.length_map, List.map_map]
    congr 1
    · ring
    · have hff : ((fun h => if h = Hand.L then Hand.R else Hand.L)
            ∘ fun h : Hand => if h = Hand.L then Hand.R else Hand.L) = id := by
        funext h
        cases h <;> rfl
      rw [hff, List.map_id]

/-- Witness for C4 at the pattern with id 2 and sticking LR (N = 2). -/
theorem reverse_pattern_involution_witness :
    reversePattern (reversePattern { id := 2, sticking := [Hand.L, Hand.R] })
        = { id := 2, sticking := [Hand.L, Hand.R] }
    ∧ (reversePattern { id := 2, sticking := [Hand.L, Hand.R] }).id
        = 2 ^ 2 - 1 - (2 : Int)
    ∧ (reversePattern { id := 2, sticking := [Hand.L, Hand.R] }).sticking
        = [Hand.L, Hand.R].map fun h => if h = Hand.L then Hand.R else Hand.L := by
  have h := reverse_pattern_involution { id := 2, sticking := [Hand.L, Hand.R] } 2
    rfl (by norm_num) (by norm_num)
  exact h

/-- C5: `normalizePatternIndex` always lands in `[0, getTotalPatterns L)`
(also for negative input), is idempotent, and length 0 gives total 3
(no division by zero occurs: the modulus is never 0). -/
theorem normalize_index_range_idempotent (x : Int) (L : Nat) :
    (0 ≤ normalizePatternIndex x L ∧ normalizePatternIndex x L < getTotalPatterns L)
    ∧ normalizePatternIndex (normalizePatternIndex x L) L = normalizePatternIndex x L
    ∧ getTotalPatterns 0 = 3 := by
  have ht : (0 : Int) < getTotalPatterns L := by
    unfold getTotalPatterns getBasePatternCount VARIANTS_PER_PATTERN
    positivity
  refine ⟨⟨?_, ?_⟩, ?_, by decide⟩
  · rw [normalizePatternIndex_eq_emod]
    exact Int.emod_nonneg x (ne_of_gt ht)
  · rw [normalizePatternIndex_eq_emod]
    exact Int.emod_lt_of_pos x ht
  · rw [normalizePatternIndex_eq_emod, normalizePatternIndex_eq_emod]
    exact Int.emod_emod_of_dvd x dvd_rfl

/-- C8 fails as stated: at index 4 and length 2 the returned pattern has
the sticking of the masked index 4 mod 2^2 = 0 but keeps the raw id 4,
so the two calls do not denote the same Pattern and the sticking does
not determine the id. -/
theorem raw_id_breaks_bijection_counterexample :
    (getPatternAtIndex 4 2).sticking = (getPatternAtIndex ((4 : Int) % 2 ^ 2) 2).sticking
    ∧ (getPatternAtIndex 4 2).id ≠ (getPatternAtIndex ((4 : Int) % 2 ^ 2) 2).id
    ∧ getPatternAtIndex 4 2 ≠ getPatternAtIndex ((4 : Int) % 2 ^ 2) 2 := by
  decide

/-- C8 amended: for any integer index and length ≤ 32 the result is
deterministic; its sticking equals the sticking at the index masked to
its low `length` bits, but its id is the raw index, and the id–sticking
bijection holds only for indices in range (decoding recovers them). -/
theorem getPatternAtIndex_masking_amended (x : Int) (L : Nat) (i : Nat)
    (hL : L ≤ 32) (hi : i < 2 ^ L) :
    (getPatternAtIndex x L).sticking = (getPatternAtIndex (x % 2 ^ L) L).sticking
    ∧ (getPatternAtIndex x L).id = x
    ∧ stickingToNat (getPatternAtIndex (i : Int) L).sticking = i := by
  refine ⟨?_, rfl, ?_⟩
  · unfold getPatternAtIndex
    apply List.map_congr_left
    intro k hk
    rw [List.mem_range] at hk
    rw [getBit_mask x L (L - 1 - k) hL (by omega)]
  · have hi32 : i < 2 ^ 32 := lt_of_lt_of_le hi (Nat.pow_le_pow_right (by norm_num) hL)
    rw [sticking_eq_natBits i L hL hi32]
    unfold stickingToNat
    rw [foldl_sticking]
    simp [Nat.mod_eq_of_lt hi]

/-- Witness for the amended C8 at x = -1, L = 3, i = 5. -/
theorem getPatternAtIndex_masking_amended_witness :
    (getPatternAtIndex (-1) 3).sticking
        = (getPatternAtIndex ((-1 : Int) % 2 ^ 3) 3).sticking
    ∧ (getPatternAtIndex (-1) 3).id = -1
    ∧ stickingToNat (getPatternAtIndex ((5 : Nat) : Int) 3).sticking = 5 :=
  getPatternAtIndex_masking_amended (-1) 3 5 (by norm_num) (by norm_num)

/-- C10: for the pattern-reversal variant, `createTwoMeasurePatternVariant`
agrees with `createTwoMeasurePattern`: measure 1 is the pattern and
measure 2 its reversal. -/
theorem variant_pattern_reversal_refines (p : GeneratedPattern) :
    createTwoMeasurePatternVariant p PatternVariant.patternReversal
      = createTwoMeasurePattern p := rfl

/-- Projections of one scheduler iteration: the loop body only changes
`nextNoteTime` and `currentBeat`, advancing the latter modulo the cycle
length. -/
theorem stepC2_proj (e : MetronomeEngine) :
    (stepC2 e).currentBeat
        = (e.currentBeat + 1) % MetronomeEngine.getTotalNotesInCycle e
    ∧ (stepC2 e).notesInMeasure = e.notesInMeasure
    ∧ (stepC2 e).twoMeasureMode = e.twoMeasureMode
    ∧ (stepC2 e).isPlaying = e.isPlaying
    ∧ (stepC2 e).callbacks = e.callbacks
    ∧ (stepC2 e).audioContext = e.audioContext :=
  ⟨rfl, rfl, rfl, rfl, rfl, rfl⟩

/-- The cycle length is unchanged by a scheduler iteration. -/
theorem getTotalNotesInCycle_stepC2 (e : MetronomeEngine) :
    MetronomeEngine.getTotalNotesInCycle (stepC2 e)
      = MetronomeEngine.getTotalNotesInCycle e := rfl

/-- The scheduled note of one loop iteration comes from `scheduleNote`
at the current `nextNoteTime` and `currentBeat`. -/
theorem schedulerBody_out (e : MetronomeEngine) (ct : ℚ) :
    (MetronomeEngine.schedulerBody e ct).2
      = MetronomeEngine.scheduleNote e e.nextNoteTime ct e.currentBeat := rfl

/-- Firing the visual timer produced by `scheduleNote` in a state where
callbacks are registered and playback is on yields `onBeat` first and
`onMeasureComplete` exactly for the last note of the cycle. -/
theorem scheduleNote_fire (e : MetronomeEngine) (time ct : ℚ) (bi : Nat)
    (e' : MetronomeEngine) (hA : e.audioContext = some ())
    (hCB : e'.callbacks = some ()) (hIP : e'.isPlaying = true) :
    (MetronomeEngine.scheduleNote e time ct bi).map
        (fun x => MetronomeEngine.fireVisualTimer e' x.2)
      = some (EngineEvent.onBeat bi ::
          (if bi = MetronomeEngine.getTotalNotesInCycle e - 1
            then [EngineEvent.onMeasureComplete] else [])) := by
  unfold MetronomeEngine.scheduleNote
  rw [hA]
  unfold MetronomeEngine.fireVisualTimer
  simp [hCB, hIP]

/-- Cycle length of the C2 scenario engine. -/
theorem engineC2start_notesInMeasure : engineC2start.notesInMeasure = 4 := by
  have h1 : engineC2start.notesInMeasure
      = (⌊getNotesPerBeat NoteValue.quarter * ((4 : Nat) : ℚ)⌋).toNat := rfl
  rw [h1, show getNotesPerBeat NoteValue.quarter = (1 : ℚ) from rfl, one_mul,
    Int.floor_natCast]
  rfl

/-- Total notes per cycle of the C2 scenario engine. -/
theorem engineC2start_totalNotes :
    MetronomeEngine.getTotalNotesInCycle engineC2start = 4 := by
  unfold MetronomeEngine.getTotalNotesInCycle
  rw [show engineC2start.twoMeasureMode = false from rfl]
  simp [engineC2start_notesInMeasure]

/-- C2: with BPM 120, quarter notes, 4/4 and single-measure mode, the
note interval is 0.5 s and the cycle has 4 notes; the visual timer of
the 4th scheduled note (beat index 3) fires `onBeat 3` immediately
followed by `onMeasureComplete`, and the beat index wraps to 0 on the
next iteration. -/
theorem scheduler_quarter_120_cycle :
    MetronomeEngine.getNoteInterval engineC2start = 1 / 2
    ∧ MetronomeEngine.getTotalNotesInCycle engineC2start = 4
    ∧ (MetronomeEngine.schedulerBody (stepC2 (stepC2 (stepC2 engineC2start))) 0).2.map
        (fun x => x.2.beatIndex) = some 3
    ∧ (MetronomeEngine.schedulerBody (stepC2 (stepC2 (stepC2 engineC2start))) 0).2.map
        (fun x => MetronomeEngine.fireVisualTimer
          (MetronomeEngine.schedulerBody (stepC2 (stepC2 (stepC2 engineC2start))) 0).1 x.2)
        = some [EngineEvent.onBeat 3, EngineEvent.onMeasureComplete]
    ∧ (stepC2 (stepC2 (stepC2 (stepC2 engineC2start)))).currentBeat = 0 := by
  have hTN := engineC2start_totalNotes
  have hb0 : engineC2start.currentBeat = 0 := rfl
  have hb1 : (stepC2 engineC2start).currentBeat = 1 := by
    rw [(stepC2_proj engineC2start).1, hb0, hTN]
  have hTN1 := (getTotalNotesInCycle_stepC2 engineC2start).trans hTN
  have hb2 : (stepC2 (stepC2 engineC2start)).currentBeat = 2 := by
    rw [(stepC2_proj (stepC2 engineC2start)).1, hb1, hTN1]
  have hTN2 := (getTotalNotesInCycle_stepC2 (stepC2 engineC2start)).trans hTN1
  have hb3 : (stepC2 (stepC2 (stepC2 engineC2start))).currentBeat = 3 := by
    rw [(stepC2_proj (stepC2 (stepC2 engineC2start))).1, hb2, hTN2]
  have hTN3 := (getTotalNotesInCycle_stepC2 (stepC2 (stepC2 engineC2start))).trans hTN2
  have hA3 : (stepC2 (stepC2 (stepC2 engineC2start))).audioContext = some () := rfl
  have hCB4 : (stepC2 (stepC2 (stepC2 (stepC2 engineC2start)))).callbacks = some () := rfl
  have hIP4 : (stepC2 (stepC2 (stepC2 (stepC2 engineC2start)))).isPlaying = true := rfl
  refine ⟨?_, hTN, ?_, ?_, ?_⟩
  · unfold MetronomeEngine.getNoteInterval
    rw [show engineC2start.bpm = 120 from rfl,
      show engineC2start.noteValue = NoteValue.quarter from rfl,
      show getNotesPerBeat NoteValue.quarter = (1 : ℚ) from rfl]
    norm_num
  · rw [schedulerBody_out, hb3]
    unfold MetronomeEngine.scheduleNote
    rw [hA3]
    simp
  · rw [schedulerBody_out, hb3]
    rw [show (MetronomeEngine.schedulerBody (stepC2 (stepC2 (stepC2 engineC2start))) 0).1
        = stepC2 (stepC2 (stepC2 (stepC2 engineC2start))) from rfl]
    rw [scheduleNote_fire _ _ _ _ _ hA3 hCB4 hIP4, hTN3]
    norm_num
  · rw [(stepC2_proj (stepC2 (stepC2 (stepC2 engineC2start)))).1, hb3, hTN3]

/-- C3: after `stop()` every pending visual-callback timer is a no-op:
the running flag is checked at fire time, so neither `onBeat` nor
`onMeasureComplete` is delivered, whatever note (and cycle length) the
timer was scheduled for before the stop. -/
theorem no_callbacks_after_stop (e : MetronomeEngine) (t : VisualTimer) :
    MetronomeEngine.fireVisualTimer (MetronomeEngine.stop e) t = []
    ∧ MetronomeEngine.isRunning (MetronomeEngine.stop e) = false := by
  unfold MetronomeEngine.stop MetronomeEngine.fireVisualTimer MetronomeEngine.isRunning
  by_cases h : e.isPlaying = false <;> simp [h]

/-- C6: when no audio context exists and none can be created, `start()`
returns normally as a total no-op: the state is unchanged, the engine
stays stopped and no polling timer is installed. -/
theorem start_noop_without_audio (e : MetronomeEngine) (currentTime : ℚ)
    (hstopped : e.isPlaying = false) (hctx : e.audioContext = none) :
    MetronomeEngine.start false currentTime e = e
    ∧ MetronomeEngine.isRunning (MetronomeEngine.start false currentTime e) = false
    ∧ (MetronomeEngine.start false currentTime e).timerID = e.timerID := by
  have h1 : MetronomeEngine.start false currentTime e = e := by
    unfold MetronomeEngine.start MetronomeEngine.initAudioContext
    simp [hstopped, hctx]
  refine ⟨h1, ?_, by rw [h1]⟩
  rw [h1]
  exact hstopped

/-- Witness for C6: a freshly constructed engine without a window
object. -/
theorem start_noop_without_audio_witness :
    MetronomeEngine.start false 0 (MetronomeEngine.new false) = MetronomeEngine.new false
    ∧ MetronomeEngine.isRunning
        (MetronomeEngine.start false 0 (MetronomeEngine.new false)) = false
    ∧ (MetronomeEngine.start false 0 (MetronomeEngine.new false)).timerID
        = (MetronomeEngine.new false).timerID :=
  start_noop_without_audio (MetronomeEngine.new false) 0 rfl rfl

/-- C7: in quarter-only click mode with eighth notes (2 notes per beat)
the click is audible exactly at even positions within the measure,
while the scheduled note's visual timer carries every beat index and,
in a playing state with callbacks, fires `onBeat` first regardless of
click audibility. -/
theorem quarter_only_click_parity (e : MetronomeEngine) (beatIndex : Nat)
    (time ct d : ℚ) (tn : Nat)
    (hmode : e.clickMode = ClickMode.quarterOnly)
    (hnv : e.noteValue = NoteValue.eighth)
    (hA : e.audioContext = some ())
    (hplay : e.isPlaying = true) (hcb : e.callbacks = some ()) :
    (MetronomeEngine.shouldPlayClick e beatIndex = true
      ↔ (beatIndex % e.notesInMeasure) % 2 = 0)
    ∧ (MetronomeEngine.scheduleNote e time ct beatIndex).map
        (fun x => x.2.beatIndex) = some beatIndex
    ∧ (MetronomeEngine.scheduleNote e time ct beatIndex).map
        (fun x => x.1.isSome) = some (MetronomeEngine.shouldPlayClick e beatIndex)
    ∧ (MetronomeEngine.fireVisualTimer e
        { delay := d, beatIndex := beatIndex, totalNotes := tn }).head?
        = some (EngineEvent.onBeat beatIndex) := by
  refine ⟨?_, ?_, ?_, ?_⟩
  · simp only [MetronomeEngine.shouldPlayClick, hmode, hnv]
    rw [if_neg (by decide : ¬(ClickMode.quarterOnly = ClickMode.everyNote))]
    rw [show getNotesPerBeat NoteValue.eighth = (2 : ℚ) from rfl]
    rw [show (2 : ℚ) = ((2 : Nat) : ℚ) by norm_num]
    rw [numRem_natCast _ 2 (by norm_num)]
    rw [decide_eq_true_eq]
    exact Nat.cast_eq_zero
  · unfold MetronomeEngine.scheduleNote
    rw [hA]
    simp
  · unfold MetronomeEngine.scheduleNote
    rw [hA]
    by_cases hpc : MetronomeEngine.shouldPlayClick e beatIndex <;> simp [hpc]
  · unfold MetronomeEngine.fireVisualTimer
    simp [hcb, hplay]

/-- Witness for C7 on a started eighth-note quarter-only engine at beat
index 2. -/
theorem quarter_only_click_parity_witness :
    (MetronomeEngine.shouldPlayClick engineC7 2 = true
      ↔ (2 % engineC7.notesInMeasure) % 2 = 0)
    ∧ (MetronomeEngine.scheduleNote engineC7 1 0 2).map
        (fun x => x.2.beatIndex) = some 2
    ∧ (MetronomeEngine.scheduleNote engineC7 1 0 2).map
        (fun x => x.1.isSome) = some (MetronomeEngine.shouldPlayClick engineC7 2)
    ∧ (MetronomeEngine.fireVisualTimer engineC7
        { delay := 5, beatIndex := 2, totalNotes := 7 }).head?
        = some (EngineEvent.onBeat 2) :=
  quarter_only_click_parity engineC7 2 1 0 5 7 rfl rfl rfl rfl rfl

/-- C9: the display name of the length-8 pattern RLRLRLRL is "Single
Stroke Roll", and any length-8 pattern missing from the rudiment table
with no repeating 2-note or 4-note unit is named "Pattern #" followed by
its 1-indexed id. -/
theorem display_name_rudiment_and_fallback (p : GeneratedPattern)
    (hlen : p.sticking.length = 8)
    (hlook : rudiments8.lookup (stickingString p) = none)
    (h2 : String.join (List.replicate 4 ((stickingString p).take 2)) ≠ stickingString p)
    (h4 : String.join (List.replicate 2 ((stickingString p).take 4)) ≠ stickingString p) :
    getPatternDisplayName
        ⟨85, [Hand.R, Hand.L, Hand.R, Hand.L, Hand.R, Hand.L, Hand.R, Hand.L]⟩
      = "Single Stroke Roll"
    ∧ getPatternDisplayName p = "Pattern #" ++ toString (p.id + 1) := by
  constructor
  · decide
  · simp only [getPatternDisplayName]
    rw [hlook]
    simp only [hlen]
    norm_num
    rw [if_neg h2, if_neg h4]

/-- Witness for C9's fallback branch: sticking RRRRRRRL (id 1) is not a
rudiment and has no repeating unit. -/
theorem display_name_rudiment_and_fallback_witness :
    getPatternDisplayName
        ⟨85, [Hand.R, Hand.L, Hand.R, Hand.L, Hand.R, Hand.L, Hand.R, Hand.L]⟩
      = "Single Stroke Roll"
    ∧ getPatternDisplayName
        ⟨1, [Hand.R, Hand.R, Hand.R, Hand.R, Hand.R, Hand.R, Hand.R, Hand.L]⟩
      = "Pattern #" ++ toString ((1 : Int) + 1) :=
  display_name_rudiment_and_fallback
    ⟨1, [Hand.R, Hand.R, Hand.R, Hand.R, Hand.R, Hand.R, Hand.R, Hand.L]⟩
    (by decide) (by decide) (by decide) (by decide)

end HandControl
